import Mathlib

/-!
Shallow embedding of `myfirstrdma.c` from the rdmatools repository.

The program is a two-process RDMA ping-pong benchmark.  Each external
transport primitive (post send, post receive, completion polling,
`memcpy`, `gettimeofday`) is modelled by an oracle supplied through a
`World`; the control flow of `setup`, `run` and `main` is transliterated
from the C source, emitting an event trace that records the order of the
calls, the latency-array writes and the buffer fill values.
-/

namespace Myfirstrdma

/-- Model of `struct timeval`. -/
structure Timeval where
  tv_sec : Int
  tv_usec : Int
  deriving Repr, DecidableEq

/-- Total microsecond value of a `timeval`. -/
def tvUsec (t : Timeval) : Int := t.tv_sec * 1000000 + t.tv_usec

/-- Transliteration of `elapsed_utime` (myfirstrdma.c:170-176): the
difference is computed in signed arithmetic and converted to the
`unsigned long long` return type (reduction modulo `2 ^ 64`). -/
def elapsed_utime (start_time end_time : Timeval) : Nat :=
  (((end_time.tv_sec - start_time.tv_sec) * 1000000 +
    (end_time.tv_usec - start_time.tv_usec)) % ((2 : Int) ^ 64)).toNat

/-- Semantics of C unsigned integer division as used on the final
statistics line of `run`: division by zero is undefined behaviour
(a trap on the target platform), modelled as `none`. -/
def cdiv (a b : Nat) : Option Nat := if b = 0 then none else some (a / b)

/-- Conversion of an `int` fill value to the `unsigned char` that
`memset` actually stores and that `char`-pointer comparisons see. -/
def byteOf (v : Nat) : Nat := v % 256

/-- Auxiliary loop of `compare` (myfirstrdma.c:154-162): scan the `n`
remaining bytes starting at position `i`, returning 0 at the first byte
that differs from `val`. -/
def compareAux (buf : Nat → Nat) (val : Nat) : Nat → Nat → Nat
  | 0, _ => 1
  | n+1, i => if buf i ≠ val then 0 else compareAux buf val n (i+1)

/-- Transliteration of `compare` (myfirstrdma.c:154-162): returns 1 iff
all `size` bytes of `buf` equal `val`, scanning from index 0 upward. -/
def compare (buf : Nat → Nat) (val : Nat) (size : Nat) : Nat :=
  compareAux buf val size 0

/-- Transliteration of the spin loop `wait` (myfirstrdma.c:164-168).
The buffer contents change under the loop (they are written by remote
DMA), so iteration `k` of the loop reads snapshot `snaps k`; `fuel`
bounds the modelled iterations.  Returns the spin count at which the
loop exits, or `none` when it does not exit within `fuel` iterations. -/
def wait (snaps : Nat → Nat → Nat) (val size : Nat) : Nat → Nat → Option Nat
  | 0, _ => none
  | fuel+1, k =>
    if compare (snaps k) val size = 0 then wait snaps val size fuel (k+1)
    else some k

/-- Transport primitives named in the `report` error messages of
`run` (the `func` argument passed to `report`). -/
inductive Prim where
  | postSend | sendComp | postRecv | recvComp | memcpyOp
  deriving Repr, DecidableEq

/-- Events emitted by the model of `run`, in program order.  `lat i t`
records `gettimeofday(&cfg->latency[i], NULL)` consuming clock position
`t`; `memsetBuf v` is `memset(cfg->buf, v, cfg->size)`; `spinWait v` is
a call `wait(cfg->buf, v, cfg->size)`; the verb-call constructors carry
the oracle return value of the corresponding call. -/
inductive Ev where
  | memsetBuf (v : Nat)
  | fence
  | postSend (i : Nat) (r : Int)
  | sendComp (i : Nat) (r : Int)
  | postRecv (i : Nat) (r : Int)
  | recvComp (i : Nat) (r : Int)
  | spinWait (v : Nat)
  | copyToMmio (ok : Bool)
  | copyFromMmio (ok : Bool)
  | lat (i : Nat) (t : Nat)
  deriving Repr, DecidableEq

/-- Latency-array write recorded by an event, if any. -/
def latOf : Ev → Option (Nat × Nat)
  | .lat i t => some (i, t)
  | _ => none

/-- Writes to `cfg->latency`, in program order: each entry is the index
written paired with the clock position of the timestamp stored there. -/
def latWrites (tr : List Ev) : List (Nat × Nat) := tr.filterMap latOf

/-- Round an event belongs to, for the events that carry one: verb
calls carry their loop index and a latency write at index `j` belongs
to round `j / 2`. -/
def evRound : Ev → Option Nat
  | .postSend i _ => some i
  | .sendComp i _ => some i
  | .postRecv i _ => some i
  | .recvComp i _ => some i
  | .lat i _ => some (i / 2)
  | _ => none

/-- Pattern value an event writes into or polls on the buffer. -/
def patternOf : Ev → Option Nat
  | .memsetBuf v => some v
  | .spinWait v => some v
  | _ => none

/-- Pattern values written into or polled on the buffer by a trace. -/
def patterns (tr : List Ev) : List Nat := tr.filterMap patternOf

/-- Rounds of the events of a trace that carry a round. -/
def rounds (tr : List Ev) : List Nat := tr.filterMap evRound

/-- Whether an event is a send posting. -/
def isPostSendEv : Ev → Bool
  | .postSend _ _ => true
  | _ => false

/-- Whether an event is a receive-completion poll. -/
def isRecvCompEv : Ev → Bool
  | .recvComp _ _ => true
  | _ => false

/-- Whether an event is the latency write at index `idx`. -/
def isLatIdx (idx : Nat) : Ev → Bool
  | .lat j _ => j == idx
  | _ => false

/-- Session configuration, the fields of `struct myfirstrdma` that steer
control flow.  `server` models `cfg->server != NULL`, i.e. a peer
address was given on the command line (that process resolves the peer
and calls `rdma_connect`); `mmapSet` models `cfg->mmap != NULL`. -/
structure Cfg where
  server : Bool
  size : Nat
  iters : Nat
  wait : Bool
  memset : Bool
  copymmio : Bool
  peerdirect : Bool
  mmapSet : Bool
  deriving Repr, DecidableEq

/-- Oracles for the external calls made inside the transfer loop, each
indexed by the loop iteration in which the call is made (each primitive
is called at most once per iteration for a given role).  `copyOk1` and
`copyOk2` model the non-NULL-ness of the two `memcpy` results; `clock`
is the sequence of `gettimeofday` readings, indexed by consumption
order. -/
structure World where
  postSendRet : Nat → Int
  sendCompRet : Nat → Int
  postRecvRet : Nat → Int
  recvCompRet : Nat → Int
  copyOk1 : Nat → Bool
  copyOk2 : Nat → Bool
  clock : Nat → Timeval

/-- State threaded through the transfer loop: the current pattern value
`cval`, the next unconsumed clock position `t`, and the event trace so
far. -/
structure St where
  cval : Nat
  t : Nat
  trace : List Ev
  deriving Repr

/-- One iteration of the transfer loop (myfirstrdma.c:281-339).  An
`Except.error (r, p, s)` is an early `return report(cfg, p, r)` from
`run`, with `s` the state at the return; `Except.ok` continues to the
next iteration.  Note that both `gettimeofday(&cfg->latency[...])`
calls in the source precede the `ret != 1` check of their completion
poll, so an aborting poll still records its timestamp. -/
def iter (cfg : Cfg) (w : World) (i : Nat) (s : St) :
    Except (Int × Prim × St) St :=
  if cfg.server = true then
    -- first half: optional pattern fill, fence, post send, poll the
    -- send completion, re-post the receive
    let tr1 := s.trace ++ (if cfg.memset = true then [Ev.memsetBuf s.cval] else []) ++
      [Ev.fence, Ev.postSend i (w.postSendRet i)]
    if w.postSendRet i = 0 then
      let tr2 := tr1 ++ [Ev.sendComp i (w.sendCompRet i), Ev.lat (2*i) s.t]
      if w.sendCompRet i = 1 then
        let tr3 := tr2 ++ [Ev.postRecv i (w.postRecvRet i)]
        if w.postRecvRet i = 0 then
          -- second half: optional spin wait, poll the receive completion
          let tr4 := tr3 ++ (if cfg.wait = true then [Ev.spinWait (s.cval + 1)] else []) ++
            [Ev.recvComp i (w.recvCompRet i), Ev.lat (2*i+1) (s.t + 1)]
          if w.recvCompRet i = 1 then
            .ok ⟨s.cval + 2, s.t + 2, tr4⟩
          else
            .error (w.recvCompRet i, Prim.recvComp, ⟨s.cval + 1, s.t + 2, tr4⟩)
        else
          .error (w.postRecvRet i, Prim.postRecv, ⟨s.cval, s.t + 1, tr3⟩)
      else
        .error (w.sendCompRet i, Prim.sendComp, ⟨s.cval, s.t + 1, tr2⟩)
    else
      .error (w.postSendRet i, Prim.postSend, ⟨s.cval, s.t, tr1⟩)
  else
    -- first half: optional spin wait, poll the receive completion,
    -- optional mirror copy out to the mmio region
    let tr1 := s.trace ++ (if cfg.wait = true then [Ev.spinWait s.cval] else []) ++
      [Ev.recvComp i (w.recvCompRet i), Ev.lat (2*i) s.t]
    if w.recvCompRet i = 1 then
      if cfg.copymmio = true ∧ w.copyOk1 i = false then
        .error (-12, Prim.memcpyOp, ⟨s.cval, s.t + 1, tr1 ++ [Ev.copyToMmio false]⟩)
      else
        let tr2 := tr1 ++ (if cfg.copymmio = true then [Ev.copyToMmio true] else [])
        -- second half: optional mirror copy back, optional pattern
        -- fill, fence, post send, poll the send completion, re-post
        -- the receive
        if cfg.copymmio = true ∧ w.copyOk2 i = false then
          .error (-12, Prim.memcpyOp, ⟨s.cval + 1, s.t + 1, tr2 ++ [Ev.copyFromMmio false]⟩)
        else
          let tr3 := tr2 ++ (if cfg.copymmio = true then [Ev.copyFromMmio true] else []) ++
            (if cfg.memset = true then [Ev.memsetBuf (s.cval + 1)] else []) ++
            [Ev.fence, Ev.postSend i (w.postSendRet i)]
          if w.postSendRet i = 0 then
            let tr4 := tr3 ++ [Ev.sendComp i (w.sendCompRet i), Ev.lat (2*i+1) (s.t + 1)]
            if w.sendCompRet i = 1 then
              let tr5 := tr4 ++ [Ev.postRecv i (w.postRecvRet i)]
              if w.postRecvRet i = 0 then
                .ok ⟨s.cval + 2, s.t + 2, tr5⟩
              else
                .error (w.postRecvRet i, Prim.postRecv, ⟨s.cval + 1, s.t + 2, tr5⟩)
            else
              .error (w.sendCompRet i, Prim.sendComp, ⟨s.cval + 1, s.t + 2, tr4⟩)
          else
            .error (w.postSendRet i, Prim.postSend, ⟨s.cval + 1, s.t + 1, tr3⟩)
    else
      .error (w.recvCompRet i, Prim.recvComp, ⟨s.cval, s.t + 1, tr1⟩)

/-- The transfer loop from iteration `i`, running `n` more iterations. -/
def loopFrom (cfg : Cfg) (w : World) : Nat → Nat → St → Except (Int × Prim × St) St
  | _, 0, s => .ok s
  | i, n+1, s =>
    match iter cfg w i s with
    | .error e => .error e
    | .ok s' => loopFrom cfg w (i+1) n s'

/-- Observable outcome of `run` (myfirstrdma.c:266-352).  `completed`
is true iff the loop ran all `cfg.iters` iterations; `clockUsed` is the
number of `gettimeofday` readings consumed; the `reported*` fields are
the values handed to `report_transfer_rate` and the average-latency
`fprintf`, present only when the loop completed. -/
structure RunOut where
  ret : Int
  err : Option Prim
  completed : Bool
  trace : List Ev
  clockUsed : Nat
  reportedBytes : Option Nat
  reportedElapsed : Option Nat
  reportedAvg : Option Nat
  deriving Repr

/-- Transliteration of `run` (myfirstrdma.c:266-352): zero the buffer,
take the start timestamp (clock position 0), run the loop from pattern
value `cval = 1`, then take the end timestamp and compute the reported
statistics.  The average latency divides by `cfg.iters` and then by 2
with no guard, hence the `cdiv` chain. -/
def run (cfg : Cfg) (w : World) : RunOut :=
  match loopFrom cfg w 0 cfg.iters ⟨1, 1, [Ev.memsetBuf 0]⟩ with
  | .error (r, p, s) =>
    ⟨r, some p, false, s.trace, s.t, none, none, none⟩
  | .ok s =>
    ⟨0, none, true, s.trace, s.t + 1,
      some (cfg.iters * cfg.size * 2),
      some (elapsed_utime (w.clock 0) (w.clock s.t)),
      (cdiv (elapsed_utime (w.clock 0) (w.clock s.t)) cfg.iters).bind
        (fun q => cdiv q 2)⟩

/-- First-half events of a successful iteration `i` of the transfer
loop started at pattern value `cval` and clock position `t`, as laid
out in the source: the `cfg->server` (connecting) process fills, posts
a send, polls the send completion and re-posts its receive; the other
process polls its receive completion and optionally mirrors the buffer
out to the mmio region. -/
def halfA (cfg : Cfg) (i cval t : Nat) : List Ev :=
  if cfg.server = true then
    (if cfg.memset = true then [Ev.memsetBuf cval] else []) ++
    [Ev.fence, Ev.postSend i 0, Ev.sendComp i 1, Ev.lat (2*i) t, Ev.postRecv i 0]
  else
    (if cfg.wait = true then [Ev.spinWait cval] else []) ++
    [Ev.recvComp i 1, Ev.lat (2*i) t] ++
    (if cfg.copymmio = true then [Ev.copyToMmio true] else [])

/-- Second-half events of a successful iteration `i`: the direction of
the transfer reverses, with pattern value `cval + 1`. -/
def halfB (cfg : Cfg) (i cval t : Nat) : List Ev :=
  if cfg.server = true then
    (if cfg.wait = true then [Ev.spinWait (cval + 1)] else []) ++
    [Ev.recvComp i 1, Ev.lat (2*i+1) (t + 1)]
  else
    (if cfg.copymmio = true then [Ev.copyFromMmio true] else []) ++
    (if cfg.memset = true then [Ev.memsetBuf (cval + 1)] else []) ++
    [Ev.fence, Ev.postSend i 0, Ev.sendComp i 1, Ev.lat (2*i+1) (t + 1), Ev.postRecv i 0]

/-- Events of one fully successful iteration. -/
def goodRound (cfg : Cfg) (i cval t : Nat) : List Ev :=
  halfA cfg i cval t ++ halfB cfg i cval t

/-- Events of `n` consecutive successful iterations starting at
iteration `i`, pattern value `cval`, clock position `t`. -/
def goodSeg (cfg : Cfg) : Nat → Nat → Nat → Nat → List Ev
  | _, 0, _, _ => []
  | i, n+1, cval, t => goodRound cfg i cval t ++ goodSeg cfg (i+1) n (cval+2) (t+2)

/-- Latency writes of `n` successful iterations starting at iteration
`i` with clock position `t`. -/
def latSeq : Nat → Nat → Nat → List (Nat × Nat)
  | _, 0, _ => []
  | i, n+1, t => (2*i, t) :: (2*i+1, t+1) :: latSeq (i+1) n (t+2)

/-- The transfer-loop oracle assignment in which every call succeeds. -/
def goodW : World where
  postSendRet := fun _ => 0
  sendCompRet := fun _ => 1
  postRecvRet := fun _ => 0
  recvCompRet := fun _ => 1
  copyOk1 := fun _ => true
  copyOk2 := fun _ => true
  clock := fun n => ⟨(n : Int), 0⟩

/-- World in which every call succeeds except that one completion poll
at iteration `i0` returns `v`: the send-completion poll when `k = true`,
the receive-completion poll when `k = false`. -/
def failWorld (k : Bool) (i0 : Nat) (v : Int) : World where
  postSendRet := fun _ => 0
  sendCompRet := fun i => if k = true ∧ i = i0 then v else 1
  postRecvRet := fun _ => 0
  recvCompRet := fun i => if k = false ∧ i = i0 then v else 1
  copyOk1 := fun _ => true
  copyOk2 := fun _ => true
  clock := fun n => ⟨(n : Int), 0⟩

/-- All transfer-loop oracles succeed at iteration `i`. -/
def goodAt (w : World) (i : Nat) : Prop :=
  w.postSendRet i = 0 ∧ w.sendCompRet i = 1 ∧ w.postRecvRet i = 0 ∧
  w.recvCompRet i = 1 ∧ w.copyOk1 i = true ∧ w.copyOk2 i = true

/-- The clock readings are non-decreasing in consumption order. -/
def ClockMono (w : World) : Prop :=
  ∀ k, tvUsec (w.clock k) ≤ tvUsec (w.clock (k+1))

/-- Trace of the outcome of one iteration, whether it continued or
returned early. -/
def outTrace : Except (Int × Prim × St) St → List Ev
  | .error (_, _, s) => s.trace
  | .ok s => s.trace

/-- Events of the connection-setup phase (myfirstrdma.c:178-264), in
call order, carrying the oracle return values. -/
inductive Sev where
  | getaddrinfo (r : Int)
  | createEp (r : Int)
  | freeInfo
  | regMsgs (ok : Bool)
  | connectTo (r : Int)
  | listenOn (r : Int)
  | getRequest (r : Int)
  | postRecv0 (r : Int)
  | acceptOn (r : Int)
  deriving Repr, DecidableEq

/-- Oracles for the external calls made during `setup`. -/
structure SetupWorld where
  getaddrinfoRet : Int
  createEpRet : Int
  regOk : Bool
  connectRet : Int
  listenRet : Int
  getRequestRet : Int
  postRecvRet : Int
  acceptRet : Int
  deriving Repr, DecidableEq

/-- Outcome of `setup`: the returned `int` and the calls made. -/
structure SetupOut where
  ret : Int
  trace : List Sev
  deriving Repr, DecidableEq

/-- Transliteration of `setup` (myfirstrdma.c:178-264).  The process
with a peer address registers its buffer and then calls
`rdma_connect`; the other process listens, takes the request, registers
its buffer, posts one receive and then accepts.  The source checks the
stale `ret` after `rdma_reg_msgs` (which returns a pointer, not `ret`),
so a failed registration does not abort: the model therefore emits the
`regMsgs` event and continues regardless of `regOk`. -/
def setup (cfg : Cfg) (sw : SetupWorld) : SetupOut :=
  if sw.getaddrinfoRet ≠ 0 then
    ⟨sw.getaddrinfoRet, [Sev.getaddrinfo sw.getaddrinfoRet]⟩
  else if sw.createEpRet ≠ 0 then
    ⟨sw.createEpRet, [Sev.getaddrinfo 0, Sev.createEp sw.createEpRet]⟩
  else
    let base := [Sev.getaddrinfo 0, Sev.createEp 0, Sev.freeInfo]
    if cfg.server = true then
      ⟨sw.connectRet, base ++ [Sev.regMsgs sw.regOk, Sev.connectTo sw.connectRet]⟩
    else
      if sw.listenRet ≠ 0 then
        ⟨sw.listenRet, base ++ [Sev.listenOn sw.listenRet]⟩
      else if sw.getRequestRet ≠ 0 then
        ⟨sw.getRequestRet, base ++ [Sev.listenOn 0, Sev.getRequest sw.getRequestRet]⟩
      else if sw.postRecvRet ≠ 0 then
        ⟨sw.postRecvRet, base ++ [Sev.listenOn 0, Sev.getRequest 0,
          Sev.regMsgs sw.regOk, Sev.postRecv0 sw.postRecvRet]⟩
      else
        ⟨sw.acceptRet, base ++ [Sev.listenOn 0, Sev.getRequest 0,
          Sev.regMsgs sw.regOk, Sev.postRecv0 0, Sev.acceptOn sw.acceptRet]⟩

/-- Setup oracle assignment in which every call succeeds. -/
def goodSW : SetupWorld :=
  ⟨0, 0, true, 0, 0, 0, 0, 0⟩

/-- Whether a setup event is the `rdma_connect` call. -/
def isConnectSev : Sev → Bool
  | .connectTo _ => true
  | _ => false

/-- Whether a setup event is the `rdma_accept` call. -/
def isAcceptSev : Sev → Bool
  | .acceptOn _ => true
  | _ => false

/-- Whether a setup event is the `rdma_reg_msgs` registration. -/
def isRegSev : Sev → Bool
  | .regMsgs _ => true
  | _ => false

/-- Whether a setup event is the pre-accept `rdma_post_recv`. -/
def isPostRecvSev : Sev → Bool
  | .postRecv0 _ => true
  | _ => false

/-- Exit codes of `enum errors` (myfirstrdma.c:49-56). -/
def BAD_ARGS : Nat := 1

/-- Exit code for a failed `open` of the mmap path. -/
def NO_OPEN : Nat := 2

/-- Exit code for a failed `mmap` (unreachable in the source: the test
`if (!cfg.mmio < 0)` is always false). -/
def NO_MMAP : Nat := 3

/-- Exit code for a failed buffer or latency-array `malloc`. -/
def NO_BUFFER : Nat := 4

/-- Exit code for a failed `setup`. -/
def SETUP_PROBLEM : Nat := 5

/-- Exit code for a non-zero return from `run`. -/
def RUN_PROBLEM : Nat := 6

/-- Resource-acquisition and phase events of `main`
(myfirstrdma.c:354-414), in program order. -/
inductive MEv where
  | openFd
  | mmapRegion
  | mallocBuf
  | mallocLat
  | setupCall
  | runCall
  deriving Repr, DecidableEq

/-- Oracles for the external calls made directly by `main`, plus the
worlds threaded into `setup` and `run`. -/
structure MainWorld where
  openOk : Bool
  mallocBufOk : Bool
  mallocLatOk : Bool
  sw : SetupWorld
  rw : World

/-- Outcome of `main`: the process exit status and the acquisition and
phase events performed before exiting. -/
structure MainOut where
  exit : Nat
  events : List MEv
  deriving Repr, DecidableEq

/-- Continuation of `main` after the transfer-buffer step: allocate
the latency array, call `setup`, call `run`, tear down and exit 0. -/
def mainAfterBuf (cfg : Cfg) (mw : MainWorld) (evs : List MEv) : MainOut :=
  if mw.mallocLatOk = false then ⟨NO_BUFFER, evs ++ [MEv.mallocLat]⟩
  else
    let evs1 := evs ++ [MEv.mallocLat, MEv.setupCall]
    if (setup cfg mw.sw).ret ≠ 0 then ⟨SETUP_PROBLEM, evs1⟩
    else
      let evs2 := evs1 ++ [MEv.runCall]
      if (run cfg mw.rw).ret ≠ 0 then ⟨RUN_PROBLEM, evs2⟩
      else ⟨0, evs2⟩

/-- Continuation of `main` after the optional open/mmap block: in
peerdirect mode without a peer address, `cfg.buf` aliases the borrowed
mmio mapping and nothing is allocated; otherwise the transfer buffer is
`malloc`ed. -/
def mainAfterMmio (cfg : Cfg) (mw : MainWorld) (evs : List MEv) : MainOut :=
  if cfg.peerdirect = true ∧ cfg.server = false then
    mainAfterBuf cfg mw evs
  else
    if mw.mallocBufOk = false then ⟨NO_BUFFER, evs ++ [MEv.mallocBuf]⟩
    else mainAfterBuf cfg mw (evs ++ [MEv.mallocBuf])

/-- Transliteration of `main` (myfirstrdma.c:354-414) after option
parsing: the two flag checks come first (no resource acquired yet),
then the open/mmap block, the buffer and latency allocations, `setup`
and `run`.  The source's mmap-failure test `if (!cfg.mmio < 0)` is
always false, so the mmap step never aborts. -/
def mainModel (cfg : Cfg) (mw : MainWorld) : MainOut :=
  if cfg.copymmio = true ∧ cfg.peerdirect = true then ⟨BAD_ARGS, []⟩
  else if cfg.peerdirect = true ∧ cfg.mmapSet = false then ⟨BAD_ARGS, []⟩
  else
    if (cfg.copymmio = true ∨ cfg.peerdirect = true) ∧
        cfg.mmapSet = true ∧ cfg.server = false then
      if mw.openOk = false then ⟨NO_OPEN, [MEv.openFd]⟩
      else mainAfterMmio cfg mw [MEv.openFd, MEv.mmapRegion]
    else mainAfterMmio cfg mw []

/-- A `MainWorld` whose direct oracles all succeed, around the given
setup and run worlds. -/
def mainWith (sw : SetupWorld) (rw : World) : MainWorld :=
  ⟨true, true, true, sw, rw⟩

/-- Modelled from the spec: the external options module (argconfig,
whose parser is not under src/) parses the round count as a
`CFG_LONG_SUFFIX` number and performs no positivity validation; every
natural number, including 0, is an accepted round count. -/
def itersAccepted (n : Nat) : Bool :=
  n == n

/-- Initiator configuration used in concrete evaluations: a peer
address was given, one iteration, no mode flags. -/
def icfg : Cfg := ⟨true, 4, 1, false, false, false, false, true⟩

/-- Responder configuration used in concrete evaluations. -/
def rcfg : Cfg := ⟨false, 4, 1, false, false, false, false, true⟩

/-- Configuration for the latency-claim witness: two iterations. -/
def c2cfg : Cfg := ⟨true, 4, 2, false, false, false, false, true⟩

/-- Configuration for the zero-status counterexample: two iterations,
Initiator role, no mode flags. -/
def c3cfg : Cfg := ⟨true, 4, 2, false, false, false, false, true⟩

/-- Configuration with both `copymmio` and `peerdirect` set. -/
def c5cfg : Cfg := ⟨false, 4096, 8, false, false, true, true, true⟩

/-- Configuration for the pattern-wrap counterexample: Responder role
with `memset` enabled and 128 iterations, so the 256th half-round
fills the buffer with pattern value 256. -/
def c9cfg : Cfg := ⟨false, 1, 128, false, true, false, false, true⟩

/-- Configuration with round count 0, as accepted by option parsing. -/
def c10cfg : Cfg := ⟨true, 4096, 0, false, false, false, false, true⟩

/-- Buffer whose first byte is 5 and whose second byte is 0: the first
byte matches an expected value of 5, the whole buffer does not. -/
def cexBuf : Nat → Nat := fun j => if j = 0 then 5 else 0

/-- Snapshot sequence for the spin-loop witness: all bytes 0 at spin
count 0, all bytes 7 afterwards. -/
def snapsW : Nat → Nat → Nat := fun st _ => if st = 0 then 0 else 7

/-- Responder configuration with pattern fill enabled and one
iteration, for the zero-initialization witness. -/
def c9wcfg : Cfg := ⟨false, 2, 1, false, true, false, false, true⟩

/-! ### Properties of `compare` and `wait` -/

/-- The scan `compareAux` accepts iff every scanned byte matches. -/
theorem compareAux_eq_one_iff (buf : Nat → Nat) (val : Nat) :
    ∀ n i, compareAux buf val n i = 1 ↔ ∀ j, j < n → buf (i + j) = val := by
  intro n
  induction n with
  | zero => intro i; simp [compareAux]
  | succ m ih =>
    intro i
    by_cases hb : buf i = val
    · rw [compareAux, if_neg (by simpa using hb), ih]
      constructor
      · intro hall j hj
        cases j with
        | zero => simpa using hb
        | succ j' =>
          have := hall j' (by omega)
          have he : i + 1 + j' = i + (j' + 1) := by omega
          rwa [he] at this
      · intro hall j hj
        have := hall (j + 1) (by omega)
        have he : i + (j + 1) = i + 1 + j := by omega
        rwa [he] at this
    · rw [compareAux, if_pos (by simpa using hb)]
      constructor
      · intro h; cases h
      · intro hall
        exact absurd (by simpa using hall 0 (by omega)) hb

/-- The `compare` of myfirstrdma.c returns 1 exactly when every one of
the `size` bytes equals `val` (not only the first byte). -/
theorem compare_eq_one_iff (buf : Nat → Nat) (val size : Nat) :
    compare buf val size = 1 ↔ ∀ j, j < size → buf j = val := by
  rw [compare, compareAux_eq_one_iff]
  simp

/-- The scan `compareAux` only ever returns 0 or 1. -/
theorem compareAux_eq_zero_or_one (buf : Nat → Nat) (val : Nat) :
    ∀ n i, compareAux buf val n i = 0 ∨ compareAux buf val n i = 1 := by
  intro n
  induction n with
  | zero => intro i; simp [compareAux]
  | succ m ih =>
    intro i
    rw [compareAux]
    split
    · exact Or.inl rfl
    · exact ih (i + 1)

/-- The return value of `compare` is 0 or 1. -/
theorem compare_eq_zero_or_one (buf : Nat → Nat) (val size : Nat) :
    compare buf val size = 0 ∨ compare buf val size = 1 :=
  compareAux_eq_zero_or_one buf val size 0

/-- The `compare` of myfirstrdma.c returns 0 exactly when some byte
within the scanned size differs from `val`. -/
theorem compare_eq_zero_iff (buf : Nat → Nat) (val size : Nat) :
    compare buf val size = 0 ↔ ∃ j, j < size ∧ buf j ≠ val := by
  constructor
  · intro h0
    by_contra hno
    push_neg at hno
    have h1 : compare buf val size = 1 := (compare_eq_one_iff buf val size).2 hno
    omega
  · rintro ⟨j, hj, hne⟩
    rcases compare_eq_zero_or_one buf val size with h | h
    · exact h
    · exact absurd ((compare_eq_one_iff buf val size).1 h j hj) hne

/-- When the spin loop `wait` exits at spin count `m`, the snapshot at
`m` is the first one at which `compare` accepts. -/
theorem wait_exits (snaps : Nat → Nat → Nat) (val size : Nat) :
    ∀ fuel k m, wait snaps val size fuel k = some m →
      compare (snaps m) val size = 1 ∧ k ≤ m ∧
      ∀ j, k ≤ j → j < m → compare (snaps j) val size = 0 := by
  intro fuel
  induction fuel with
  | zero => intro k m h; simp [wait] at h
  | succ f ih =>
    intro k m h
    rw [wait] at h
    split at h
    · rename_i hcmp
      obtain ⟨h1, h2, h3⟩ := ih (k+1) m h
      refine ⟨h1, by omega, ?_⟩
      intro j hkj hjm
      by_cases hjk : j = k
      · subst hjk; exact hcmp
      · exact h3 j (by omega) hjm
    · rename_i hcmp
      have hm : k = m := by simpa using h
      subst hm
      rcases compare_eq_zero_or_one (snaps k) val size with hz | ho
      · exact absurd hz hcmp
      · exact ⟨ho, le_refl _, fun j h1 h2 => by omega⟩

/-! ### Characterization of the transfer loop on success -/

/-- A successful iteration advances `cval` and the clock by 2 and
appends exactly the events of `goodRound`. -/
theorem iter_ok {cfg : Cfg} {w : World} {i : Nat} {s s' : St}
    (h : iter cfg w i s = Except.ok s') :
    s' = ⟨s.cval + 2, s.t + 2, s.trace ++ goodRound cfg i s.cval s.t⟩ := by
  cases hs : cfg.server with
  | true =>
    simp only [iter, hs, if_true] at h
    split_ifs at h <;> cases h <;>
      simp [goodRound, halfA, halfB, hs, *, List.append_assoc]
  | false =>
    simp only [iter, hs, Bool.false_eq_true, if_false] at h
    split_ifs at h <;> cases h <;>
      simp [goodRound, halfA, halfB, hs, *, List.append_assoc]

/-- A successful stretch of `n` iterations appends exactly the events
of `goodSeg` and advances `cval` and the clock by `2 * n`. -/
theorem loopFrom_ok {cfg : Cfg} {w : World} :
    ∀ {n i : Nat} {s s' : St}, loopFrom cfg w i n s = Except.ok s' →
      s' = ⟨s.cval + 2*n, s.t + 2*n, s.trace ++ goodSeg cfg i n s.cval s.t⟩ := by
  intro n
  induction n with
  | zero =>
    intro i s s' h
    cases h
    simp [goodSeg]
  | succ m ih =>
    intro i s s' h
    rw [loopFrom] at h
    cases hit : iter cfg w i s with
    | error e => rw [hit] at h; cases h
    | ok s1 =>
      rw [hit] at h
      have h1 := iter_ok hit
      have h2 := ih h
      subst h1
      rw [h2]
      simp only [goodSeg, St.mk.injEq, List.append_assoc]
      refine ⟨by omega, by omega, trivial⟩

/-- A run that completed all iterations produced exactly the trace of
`cfg.iters` successful rounds, consumed `2 * cfg.iters + 2` clock
readings, and reported the statistics of the full loop. -/
theorem run_completed {cfg : Cfg} {w : World}
    (hc : (run cfg w).completed = true) :
    (run cfg w).trace = Ev.memsetBuf 0 :: goodSeg cfg 0 cfg.iters 1 1 ∧
    (run cfg w).clockUsed = 2 * cfg.iters + 2 ∧
    (run cfg w).ret = 0 ∧
    (run cfg w).reportedBytes = some (cfg.iters * cfg.size * 2) ∧
    (run cfg w).reportedElapsed =
      some (elapsed_utime (w.clock 0) (w.clock (2 * cfg.iters + 1))) ∧
    (run cfg w).reportedAvg =
      (cdiv (elapsed_utime (w.clock 0) (w.clock (2 * cfg.iters + 1))) cfg.iters).bind
        (fun q => cdiv q 2) := by
  cases hlp : loopFrom cfg w 0 cfg.iters ⟨1, 1, [Ev.memsetBuf 0]⟩ with
  | error e =>
    exfalso
    rcases e with ⟨r, p, st⟩
    simp [run, hlp] at hc
  | ok s =>
    have hs := loopFrom_ok hlp
    have ht : s.t = 2 * cfg.iters + 1 := by
      rw [hs]; show 1 + 2 * cfg.iters = 2 * cfg.iters + 1; omega
    have htr : s.trace = Ev.memsetBuf 0 :: goodSeg cfg 0 cfg.iters 1 1 := by
      rw [hs]; simp
    refine ⟨?_, ?_, ?_, ?_, ?_, ?_⟩ <;>
      simp [run, hlp, ht, htr]

/-! ### Latency writes of a successful run -/

/-- A successful round writes `cfg->latency[2*i]` and then
`cfg->latency[2*i+1]`, with consecutive clock positions, whatever the
mode flags. -/
theorem latWrites_goodRound (cfg : Cfg) (i cval t : Nat) :
    latWrites (goodRound cfg i cval t) = [(2*i, t), (2*i+1, t+1)] := by
  cases hs : cfg.server <;> cases hm : cfg.memset <;> cases hw : cfg.wait <;>
    cases hcm : cfg.copymmio <;>
      simp [latWrites, goodRound, halfA, halfB, latOf, hs, hm, hw, hcm]

/-- The latency writes of `n` successful rounds. -/
theorem latWrites_goodSeg (cfg : Cfg) :
    ∀ n i cval t, latWrites (goodSeg cfg i n cval t) = latSeq i n t := by
  intro n
  induction n with
  | zero => intro i cval t; simp [goodSeg, latSeq, latWrites]
  | succ m ih =>
    intro i cval t
    rw [goodSeg, latSeq]
    simp only [latWrites, List.filterMap_append]
    rw [← latWrites, ← latWrites, latWrites_goodRound, ih]
    rfl

/-- Closed form of the latency-write sequence of a full run: write `j`
goes to index `j` and stores the clock reading at position `j + 1`. -/
theorem latSeq_closed :
    ∀ n i, latSeq i n (2*i + 1) =
      (List.range (2*n)).map (fun j => (2*i + j, 2*i + j + 1)) := by
  intro n
  induction n with
  | zero => intro i; simp [latSeq]
  | succ m ih =>
    intro i
    rw [latSeq]
    have h1 : 2*i + 1 + 1 = 2*(i+1) := by omega
    have h2 : 2*i + 1 + 2 = 2*(i+1) + 1 := by omega
    rw [h1, h2, ih]
    have h3 : 2*(m+1) = (2*m + 1) + 1 := by omega
    rw [h3, List.range_succ_eq_map, List.range_succ_eq_map]
    simp only [List.map_cons, List.map_map]
    refine List.cons_eq_cons.mpr ⟨by simp, List.cons_eq_cons.mpr ⟨?_, ?_⟩⟩
    · simp [Prod.ext_iff]
      omega
    · apply List.map_congr_left
      intro a _
      simp [Function.comp, Prod.ext_iff]
      omega

/-- Latency-write sequence of a run started at clock position 1. -/
theorem latSeq_run (n : Nat) :
    latSeq 0 n 1 = (List.range (2*n)).map (fun j => (j, j + 1)) := by
  have h := latSeq_closed n 0
  simpa using h

/-- Mapping a monotone function over `List.range` yields a chain of
inequalities. -/
theorem chain_le_map_range (f : Nat → Int) (hf : ∀ k, f k ≤ f (k+1)) :
    ∀ n, List.Chain' (fun a b => a ≤ b) ((List.range n).map f) := by
  intro n
  rw [List.chain'_map]
  cases n with
  | zero => simp
  | succ m =>
    rw [List.chain'_range_succ]
    intro k _
    exact hf k

/-! ### Pattern values and rounds of the traces -/

/-- The pattern values of round `i` are `cval` and `cval + 1`. -/
theorem patterns_goodRound {cfg : Cfg} {i cval t v : Nat}
    (hv : v ∈ patterns (goodRound cfg i cval t)) : v = cval ∨ v = cval + 1 := by
  cases hs : cfg.server <;> cases hm : cfg.memset <;> cases hw : cfg.wait <;>
    cases hcm : cfg.copymmio <;>
      simp [patterns, goodRound, halfA, halfB, patternOf, hs, hm, hw, hcm] at hv <;>
      tauto

/-- The pattern values of `n` successful rounds starting at pattern
value `cval` lie in `[cval, cval + 2*n)`. -/
theorem patterns_goodSeg {cfg : Cfg} :
    ∀ {n i cval t v}, v ∈ patterns (goodSeg cfg i n cval t) →
      cval ≤ v ∧ v < cval + 2*n := by
  intro n
  induction n with
  | zero => intro i cval t v hv; simp [goodSeg, patterns] at hv
  | succ m ih =>
    intro i cval t v hv
    rw [goodSeg] at hv
    simp only [patterns, List.filterMap_append, List.mem_append] at hv
    rcases hv with hv | hv
    · rcases patterns_goodRound hv with h | h <;> omega
    · have := ih hv
      omega

/-- Every round-carrying event of round `i` reports round `i`. -/
theorem rounds_goodRound {cfg : Cfg} {i cval t j : Nat}
    (hj : j ∈ rounds (goodRound cfg i cval t)) : j = i := by
  have h21 : 2*i/2 = i := by omega
  have h22 : (2*i+1)/2 = i := by omega
  cases hs : cfg.server <;> cases hm : cfg.memset <;> cases hw : cfg.wait <;>
    cases hcm : cfg.copymmio <;>
      simp [rounds, goodRound, halfA, halfB, evRound, h21, h22,
        hs, hm, hw, hcm] at hj <;>
      omega

/-- The rounds of the events of `n` successful rounds starting at
round `i` lie in `[i, i + n)`. -/
theorem rounds_goodSeg {cfg : Cfg} :
    ∀ {n i cval t j}, j ∈ rounds (goodSeg cfg i n cval t) →
      i ≤ j ∧ j < i + n := by
  intro n
  induction n with
  | zero => intro i cval t j hj; simp [goodSeg, rounds] at hj
  | succ m ih =>
    intro i cval t j hj
    rw [goodSeg] at hj
    simp only [rounds, List.filterMap_append, List.mem_append] at hj
    rcases hj with hj | hj
    · have := rounds_goodRound hj; omega
    · have := ih hj; omega

set_option maxHeartbeats 1600000 in
/-- Whatever the outcome of an iteration, it only appends events of
its own round to the trace. -/
theorem iter_rounds {cfg : Cfg} {w : World} {i : Nat} {s : St} {j : Nat}
    (hj : j ∈ rounds (outTrace (iter cfg w i s))) :
    j ∈ rounds s.trace ∨ j = i := by
  have h21 : 2*i/2 = i := by omega
  have h22 : (2*i+1)/2 = i := by omega
  cases hs : cfg.server <;> cases hm : cfg.memset <;> cases hw : cfg.wait <;>
    cases hcm : cfg.copymmio <;>
      simp only [iter, hs, hm, hw, hcm, if_true, if_false,
        Bool.false_eq_true, Bool.true_eq_false] at hj <;>
      split_ifs at hj <;>
        simp [outTrace, rounds, evRound, h21, h22, List.filterMap_append,
          or_assoc] at hj ⊢ <;>
        tauto

/-! ### Success under good oracles, and the injected-failure runs -/

/-- When every oracle of iteration `i` succeeds, the iteration
succeeds. -/
theorem iter_ok_of_good {cfg : Cfg} {w : World} {i : Nat} (s : St)
    (hg : goodAt w i) :
    iter cfg w i s = Except.ok ⟨s.cval + 2, s.t + 2, s.trace ++ goodRound cfg i s.cval s.t⟩ := by
  obtain ⟨h1, h2, h3, h4, h5, h6⟩ := hg
  cases hs : cfg.server <;>
    simp [iter, goodRound, halfA, halfB, hs, h1, h2, h3, h4, h5, h6, List.append_assoc]

/-- When every oracle of iterations `[i, i+n)` succeeds, the loop
stretch succeeds. -/
theorem loopFrom_ok_of_good {cfg : Cfg} {w : World} :
    ∀ n i (s : St), (∀ j, i ≤ j → j < i + n → goodAt w j) →
      loopFrom cfg w i n s =
        Except.ok ⟨s.cval + 2*n, s.t + 2*n, s.trace ++ goodSeg cfg i n s.cval s.t⟩ := by
  intro n
  induction n with
  | zero =>
    intro i s _
    rw [loopFrom]
    cases s with
    | mk c t tr => simp [goodSeg]
  | succ m ih =>
    intro i s hg
    rw [loopFrom, iter_ok_of_good s (hg i (le_refl i) (by omega))]
    show loopFrom cfg w (i+1) m ⟨s.cval + 2, s.t + 2, s.trace ++ goodRound cfg i s.cval s.t⟩ =
      Except.ok ⟨s.cval + 2*(m+1), s.t + 2*(m+1), s.trace ++ goodSeg cfg i (m+1) s.cval s.t⟩
    rw [ih (i+1) _ (fun j h1 h2 => hg j (by omega) (by omega))]
    simp only [goodSeg, Except.ok.injEq, St.mk.injEq, List.append_assoc]
    refine ⟨by omega, by omega, trivial⟩

/-- Splitting a loop stretch in two. -/
theorem loopFrom_add (cfg : Cfg) (w : World) :
    ∀ m n i (s : St), loopFrom cfg w i (m + n) s =
      match loopFrom cfg w i m s with
      | .error e => .error e
      | .ok s1 => loopFrom cfg w (i + m) n s1 := by
  intro m
  induction m with
  | zero =>
    intro n i s
    simp [loopFrom]
  | succ m' ih =>
    intro n i s
    have hc : m' + 1 + n = (m' + n) + 1 := by omega
    rw [hc, loopFrom, loopFrom]
    cases iter cfg w i s with
    | error e => rfl
    | ok s1 =>
      show loopFrom cfg w (i+1) (m' + n) s1 =
        match loopFrom cfg w (i+1) m' s1 with
        | .error e => .error e
        | .ok s2 => loopFrom cfg w (i + (m'+1)) n s2
      rw [ih]
      cases loopFrom cfg w (i+1) m' s1 with
      | error e => rfl
      | ok s2 =>
        have he : i + 1 + m' = i + (m' + 1) := by omega
        rw [he]

/-- Away from the injected iteration, all `failWorld` oracles
succeed. -/
theorem failWorld_goodAt {k : Bool} {i0 : Nat} {v : Int} {j : Nat}
    (hj : j ≠ i0) : goodAt (failWorld k i0 v) j := by
  cases k <;> simp [goodAt, failWorld, hj]

/-- Return value and primitive of the failed iteration, if the
iteration failed. -/
def outFail : Except (Int × Prim × St) St → Option (Int × Prim)
  | .error (r, p, _) => some (r, p)
  | .ok _ => none

/-- At the injected iteration, `iter` under `failWorld` returns the
injected status from the corresponding completion poll. -/
theorem iter_fail (cfg : Cfg) (k : Bool) (i0 : Nat) {v : Int}
    (hv : v ≠ 1) (s : St) :
    outFail (iter cfg (failWorld k i0 v) i0 s) =
      some (v, if k = true then Prim.sendComp else Prim.recvComp) := by
  cases k <;> cases hs : cfg.server <;>
    simp [iter, failWorld, outFail, hs, hv]

/-- Rounds distribute over trace concatenation. -/
theorem rounds_append (l1 l2 : List Ev) :
    rounds (l1 ++ l2) = rounds l1 ++ rounds l2 :=
  List.filterMap_append l1 l2 evRound

/-- Full description of a run whose only oracle failure is one
completion poll, at iteration `i0`, returning `v ≠ 1`: the run stops
at that poll with `v` as its return value, the failing primitive is
named, and no event of any later round is in the trace. -/
theorem run_failWorld (cfg : Cfg) (k : Bool) (i0 : Nat) (v : Int)
    (hi : i0 < cfg.iters) (hv : v ≠ 1) :
    (run cfg (failWorld k i0 v)).completed = false ∧
    (run cfg (failWorld k i0 v)).ret = v ∧
    (run cfg (failWorld k i0 v)).err =
      some (if k = true then Prim.sendComp else Prim.recvComp) ∧
    ∀ j ∈ rounds (run cfg (failWorld k i0 v)).trace, j ≤ i0 := by
  obtain ⟨m, hm⟩ : ∃ m, cfg.iters = i0 + (m + 1) :=
    ⟨cfg.iters - i0 - 1, by omega⟩
  have hpre : loopFrom cfg (failWorld k i0 v) 0 i0 ⟨1, 1, [Ev.memsetBuf 0]⟩ =
      Except.ok ⟨1 + 2*i0, 1 + 2*i0, [Ev.memsetBuf 0] ++ goodSeg cfg 0 i0 1 1⟩ :=
    loopFrom_ok_of_good i0 0 _ (fun j _ h2 => failWorld_goodAt (by omega))
  cases hit : iter cfg (failWorld k i0 v) i0
      ⟨1 + 2*i0, 1 + 2*i0, [Ev.memsetBuf 0] ++ goodSeg cfg 0 i0 1 1⟩ with
  | ok s2 =>
    exfalso
    have hf := iter_fail cfg k i0 hv
      ⟨1 + 2*i0, 1 + 2*i0, [Ev.memsetBuf 0] ++ goodSeg cfg 0 i0 1 1⟩
    rw [hit] at hf
    simp [outFail] at hf
  | error e =>
    rcases e with ⟨r, p, st⟩
    have hf := iter_fail cfg k i0 hv
      ⟨1 + 2*i0, 1 + 2*i0, [Ev.memsetBuf 0] ++ goodSeg cfg 0 i0 1 1⟩
    rw [hit] at hf
    simp only [outFail, Option.some.injEq, Prod.mk.injEq] at hf
    obtain ⟨hr, hp⟩ := hf
    have h2 := loopFrom_add cfg (failWorld k i0 v) i0 (m+1) 0 ⟨1, 1, [Ev.memsetBuf 0]⟩
    rw [hpre] at h2
    have hloop : loopFrom cfg (failWorld k i0 v) 0 cfg.iters ⟨1, 1, [Ev.memsetBuf 0]⟩ =
        Except.error (r, p, st) := by
      rw [hm, h2]
      show loopFrom cfg (failWorld k i0 v) (0 + i0) (m+1)
        ⟨1 + 2*i0, 1 + 2*i0, [Ev.memsetBuf 0] ++ goodSeg cfg 0 i0 1 1⟩ = _
      rw [Nat.zero_add, loopFrom, hit]
    refine ⟨?_, ?_, ?_, ?_⟩
    · simp [run, hloop]
    · simp [run, hloop, hr]
    · simp [run, hloop, hp]
    · intro j hj
      have htr : (run cfg (failWorld k i0 v)).trace = st.trace := by
        simp [run, hloop]
      rw [htr] at hj
      have hot : st.trace = outTrace (iter cfg (failWorld k i0 v) i0
          ⟨1 + 2*i0, 1 + 2*i0, [Ev.memsetBuf 0] ++ goodSeg cfg 0 i0 1 1⟩) := by
        rw [hit]
        rfl
      rw [hot] at hj
      rcases iter_rounds hj with hj' | hj'
      · rw [show (⟨1 + 2*i0, 1 + 2*i0, [Ev.memsetBuf 0] ++ goodSeg cfg 0 i0 1 1⟩ : St).trace =
            [Ev.memsetBuf 0] ++ goodSeg cfg 0 i0 1 1 from rfl, rounds_append] at hj'
        rcases List.mem_append.1 hj' with hj2 | hj2
        · simp [rounds, evRound] at hj2
        · have := rounds_goodSeg hj2
          omega
      · omega

/-- When every setup oracle succeeds, `setup` returns 0 for either
role. -/
theorem setup_goodSW (cfg : Cfg) : (setup cfg goodSW).ret = 0 := by
  cases hs : cfg.server <;> simp [setup, goodSW, hs]

/-- With good direct oracles and a good setup world, the exit status
of `main` is decided by the return value of `run`: 0 when `run`
returns 0 (even if the loop aborted), `RUN_PROBLEM` otherwise. -/
theorem mainModel_goodSetup_exit (cfg : Cfg) (w : World)
    (h1 : ¬(cfg.copymmio = true ∧ cfg.peerdirect = true))
    (h2 : ¬(cfg.peerdirect = true ∧ cfg.mmapSet = false)) :
    (mainModel cfg (mainWith goodSW w)).exit =
      if (run cfg w).ret = 0 then 0 else RUN_PROBLEM := by
  rcases Bool.eq_false_or_eq_true cfg.copymmio with hcm | hcm <;>
    rcases Bool.eq_false_or_eq_true cfg.peerdirect with hpd | hpd <;>
      rcases Bool.eq_false_or_eq_true cfg.server with hsv | hsv <;>
        rcases Bool.eq_false_or_eq_true cfg.mmapSet with hms | hms <;>
          by_cases hr : (run cfg w).ret = 0 <;>
            simp [mainModel, mainAfterMmio, mainAfterBuf, mainWith,
              setup_goodSW, hcm, hpd, hsv, hms, hr] <;>
            first
              | exact absurd (And.intro hcm hpd) h1
              | exact absurd (And.intro hpd hms) h2

/-- In-range difference form of `elapsed_utime`: when the microsecond
difference is representable, it is exactly the end reading minus the
start reading. -/
theorem elapsed_utime_eq {s e : Timeval}
    (h0 : 0 ≤ tvUsec e - tvUsec s) (h1 : tvUsec e - tvUsec s < 2^64) :
    elapsed_utime s e = (tvUsec e - tvUsec s).toNat := by
  unfold elapsed_utime
  unfold tvUsec at h0 h1
  have hd : (e.tv_sec - s.tv_sec) * 1000000 + (e.tv_usec - s.tv_usec) =
      (e.tv_sec * 1000000 + e.tv_usec) - (s.tv_sec * 1000000 + s.tv_usec) := by
    ring
  rw [hd, Int.emod_eq_of_lt h0 h1]
  rfl

/-- Membership of a round's events in a segment of successful
rounds. -/
theorem mem_goodSeg {cfg : Cfg} {e : Ev} :
    ∀ {n i cval t r}, r < n →
      e ∈ goodRound cfg (i + r) (cval + 2*r) (t + 2*r) →
      e ∈ goodSeg cfg i n cval t := by
  intro n
  induction n with
  | zero => intro i cval t r hr _; exact absurd hr (by omega)
  | succ m ih =>
    intro i cval t r hr hm
    rw [goodSeg]
    rcases Nat.eq_zero_or_pos r with rfl | hrp
    · exact List.mem_append.2 (Or.inl (by simpa using hm))
    · refine List.mem_append.2 (Or.inr ?_)
      have hr' : r - 1 < m := by omega
      have hm' : e ∈ goodRound cfg ((i+1) + (r-1)) ((cval+2) + 2*(r-1)) ((t+2) + 2*(r-1)) := by
        have e1 : (i+1) + (r-1) = i + r := by omega
        have e2 : (cval+2) + 2*(r-1) = cval + 2*r := by omega
        have e3 : (t+2) + 2*(r-1) = t + 2*r := by omega
        rw [e1, e2, e3]
        exact hm
      exact ih hr' hm'

/-! ### Claim theorems -/

/-- C1, counterexample: the claim says the Initiator (the process
given a peer address, `cfg.server = true`) is the receiver in
half-round A.  In a successful Initiator run, the events before the
first latency record (half-round A) contain a send posting and no
receive-completion poll: the Initiator is the sender of half-round A,
not its receiver. -/
theorem C1_counterexample :
    ((run icfg goodW).trace.takeWhile (fun e => !(isLatIdx 0 e))).any isPostSendEv = true ∧
    ((run icfg goodW).trace.takeWhile (fun e => !(isLatIdx 0 e))).any isRecvCompEv = false := by
  decide

/-- C1, amended: in every round of a completed run, in half-round A
the Initiator (`cfg.server = true`, the process given a peer address)
is the sender and the Responder is the receiver; in half-round B the
roles reverse.  The trace of a completed run is exactly the rounds of
`goodSeg`, each round `halfA ++ halfB`, and for every round `halfA` of
the Initiator posts a send and polls no receive completion while
`halfA` of the Responder polls a receive completion and posts no send;
symmetrically for `halfB`. -/
theorem C1_roles (cfg : Cfg) (w : World) (hc : (run cfg w).completed = true) :
    (run cfg w).trace = Ev.memsetBuf 0 :: goodSeg cfg 0 cfg.iters 1 1 ∧
    ∀ i cval t,
      (cfg.server = true →
        ((halfA cfg i cval t).any isPostSendEv = true ∧
         (halfA cfg i cval t).any isRecvCompEv = false ∧
         (halfB cfg i cval t).any isRecvCompEv = true ∧
         (halfB cfg i cval t).any isPostSendEv = false)) ∧
      (cfg.server = false →
        ((halfA cfg i cval t).any isRecvCompEv = true ∧
         (halfA cfg i cval t).any isPostSendEv = false ∧
         (halfB cfg i cval t).any isPostSendEv = true ∧
         (halfB cfg i cval t).any isRecvCompEv = false)) := by
  refine ⟨(run_completed hc).1, ?_⟩
  intro i cval t
  constructor <;> intro hs <;>
    cases hm : cfg.memset <;> cases hw : cfg.wait <;> cases hcm : cfg.copymmio <;>
      simp [halfA, halfB, isPostSendEv, isRecvCompEv, hs, hm, hw, hcm]

/-- C1, witness: concrete completed Initiator run. -/
theorem C1_witness :
    (run icfg goodW).trace = Ev.memsetBuf 0 :: goodSeg icfg 0 icfg.iters 1 1 ∧
    (halfA icfg 0 1 1).any isPostSendEv = true := by
  have h := C1_roles icfg goodW (by decide)
  exact ⟨h.1, ((h.2 0 1 1).1 rfl).1⟩

/-- C2: a run that completes all `R ≥ 1` rounds (with any buffer size
`S ≥ 1`) performs exactly `2R` latency writes, in index order `0, 1,
…, 2R-1` (so the write of half-round `h` of round `r` goes to index
`2r + h`, and each index is written exactly once), storing the clock
readings at positions `1, …, 2R`; under a monotone clock the stored
timestamps are non-decreasing in index order. -/
theorem C2_latency (cfg : Cfg) (w : World)
    (hR : 1 ≤ cfg.iters) (hS : 1 ≤ cfg.size)
    (hc : (run cfg w).completed = true) (hmono : ClockMono w) :
    latWrites (run cfg w).trace =
      (List.range (2 * cfg.iters)).map (fun j => (j, j + 1)) ∧
    List.Chain' (fun a b => a ≤ b)
      ((latWrites (run cfg w).trace).map (fun p => tvUsec (w.clock p.2))) := by
  have htr := (run_completed hc).1
  have h1 : latWrites (run cfg w).trace =
      (List.range (2 * cfg.iters)).map (fun j => (j, j + 1)) := by
    rw [htr]
    have hh : latWrites (Ev.memsetBuf 0 :: goodSeg cfg 0 cfg.iters 1 1) =
        latWrites (goodSeg cfg 0 cfg.iters 1 1) := by
      simp [latWrites, latOf]
    rw [hh, latWrites_goodSeg, latSeq_run]
  refine ⟨h1, ?_⟩
  rw [h1, List.map_map]
  have hch := chain_le_map_range (fun j => tvUsec (w.clock (j + 1)))
    (fun k => hmono (k + 1)) (2 * cfg.iters)
  simpa [Function.comp] using hch

/-- C2, witness: two-round Initiator run under the good world. -/
theorem C2_witness :
    latWrites (run c2cfg goodW).trace =
      (List.range (2 * c2cfg.iters)).map (fun j => (j, j + 1)) ∧
    List.Chain' (fun a b => a ≤ b)
      ((latWrites (run c2cfg goodW).trace).map (fun p => tvUsec (goodW.clock p.2))) :=
  C2_latency c2cfg goodW (by decide) (by decide) (by decide)
    (fun k => by simp [goodW, tvUsec])

/-- C3, counterexample: a send-completion poll that returns 0 (a
status other than exactly one completion) at round 0 of a two-round
run aborts the loop, yet `run` returns 0, so `main` treats the run as
successful and the process exits with status 0 — not with a non-zero
transfer-loop failure code as the claim requires. -/
theorem C3_counterexample :
    (run c3cfg (failWorld true 0 0)).completed = false ∧
    (run c3cfg (failWorld true 0 0)).err = some Prim.sendComp ∧
    (mainModel c3cfg (mainWith goodSW (failWorld true 0 0))).exit = 0 := by
  decide

/-- C3, amended: for any iteration `i0` and either completion poll, a
return status `v ≠ 1` aborts the run at that poll: the loop does not
complete, `run` returns `v`, the reported error names the failing
primitive, no event of any round after `i0` is in the trace — and the
process exits with the transfer-loop failure code `RUN_PROBLEM`
exactly when `v ≠ 0`; a zero status makes `main` exit 0. -/
theorem C3_abort (cfg : Cfg) (k : Bool) (i0 : Nat) (v : Int)
    (hi : i0 < cfg.iters) (hv : v ≠ 1)
    (h1 : ¬(cfg.copymmio = true ∧ cfg.peerdirect = true))
    (h2 : ¬(cfg.peerdirect = true ∧ cfg.mmapSet = false)) :
    (run cfg (failWorld k i0 v)).completed = false ∧
    (run cfg (failWorld k i0 v)).ret = v ∧
    (run cfg (failWorld k i0 v)).err =
      some (if k = true then Prim.sendComp else Prim.recvComp) ∧
    (∀ j ∈ rounds (run cfg (failWorld k i0 v)).trace, j ≤ i0) ∧
    (mainModel cfg (mainWith goodSW (failWorld k i0 v))).exit =
      (if v = 0 then 0 else RUN_PROBLEM) := by
  obtain ⟨hcomp, hret, herr, hbound⟩ := run_failWorld cfg k i0 v hi hv
  refine ⟨hcomp, hret, herr, hbound, ?_⟩
  rw [mainModel_goodSetup_exit cfg _ h1 h2, hret]

/-- C3, witness: a receive-completion poll returning -1 at round 1
aborts and the process exits with the transfer-loop failure code. -/
theorem C3_witness :
    (run c3cfg (failWorld false 1 (-1))).completed = false ∧
    (run c3cfg (failWorld false 1 (-1))).ret = -1 ∧
    (mainModel c3cfg (mainWith goodSW (failWorld false 1 (-1)))).exit = RUN_PROBLEM := by
  have h := C3_abort c3cfg false 1 (-1) (by decide) (by decide) (by decide) (by decide)
  refine ⟨h.1, h.2.1, ?_⟩
  have h5 := h.2.2.2.2
  simpa using h5

/-- C4, counterexample: the claim says the Initiator registers its
buffer only after its connect call has completed, but in a successful
Initiator setup a registration event occurs strictly before the
connect event. -/
theorem C4_counterexample :
    ((setup icfg goodSW).trace.takeWhile (fun e => !(isConnectSev e))).any isRegSev = true ∧
    (setup icfg goodSW).ret = 0 := by
  decide

/-- C4, amended: in every successful setup, the Responder registers
its buffer and posts exactly one receive before calling accept, and
the Initiator performs its registration before (not after) issuing its
connect call. -/
theorem C4_order (cfg : Cfg) (sw : SetupWorld)
    (hret : (setup cfg sw).ret = 0) :
    (cfg.server = false →
      ((setup cfg sw).trace.takeWhile (fun e => !(isAcceptSev e))).any isRegSev = true ∧
      (((setup cfg sw).trace.takeWhile (fun e => !(isAcceptSev e))).filter isPostRecvSev).length = 1 ∧
      (setup cfg sw).trace.any isAcceptSev = true) ∧
    (cfg.server = true →
      ((setup cfg sw).trace.takeWhile (fun e => !(isConnectSev e))).any isRegSev = true ∧
      (setup cfg sw).trace.any isConnectSev = true) := by
  cases hs : cfg.server with
  | false =>
    refine ⟨?_, by intro h; exact absurd h (by simp [hs])⟩
    intro _
    simp only [setup, hs, Bool.false_eq_true, if_false] at hret ⊢
    split_ifs at hret ⊢ with hg hc hl hgr hpr
    · exact absurd hret hg
    · exact absurd hret hc
    · exact absurd hret hl
    · exact absurd hret hgr
    · exact absurd hret hpr
    · simp [isAcceptSev, isRegSev, isPostRecvSev]
  | true =>
    refine ⟨by intro h; exact absurd h (by simp [hs]), ?_⟩
    intro _
    simp only [setup, hs, if_true] at hret ⊢
    split_ifs at hret ⊢ with hg hc
    · exact absurd hret hg
    · exact absurd hret hc
    · simp [isConnectSev, isRegSev]

/-- C4, witness: concrete successful Responder setup. -/
theorem C4_witness :
    ((setup rcfg goodSW).trace.takeWhile (fun e => !(isAcceptSev e))).any isRegSev = true ∧
    (((setup rcfg goodSW).trace.takeWhile (fun e => !(isAcceptSev e))).filter isPostRecvSev).length = 1 := by
  have h := C4_order rcfg goodSW (by decide)
  exact ⟨(h.1 rfl).1, (h.1 rfl).2.1⟩

/-- C5: whenever both the mirror-copy flag and the direct-device
buffer flag are set, `main` exits with the bad-arguments code
`BAD_ARGS = 1` having performed no acquisition or phase event at all:
no open, no mmap, no allocation, and no setup or run call. -/
theorem C5_mutex (cfg : Cfg) (mw : MainWorld)
    (h1 : cfg.copymmio = true) (h2 : cfg.peerdirect = true) :
    mainModel cfg mw = ⟨BAD_ARGS, []⟩ ∧ BAD_ARGS = 1 := by
  simp [mainModel, h1, h2, BAD_ARGS]

/-- C5, witness: concrete configuration with both flags set. -/
theorem C5_witness :
    mainModel c5cfg (mainWith goodSW goodW) = ⟨BAD_ARGS, []⟩ ∧ BAD_ARGS = 1 :=
  C5_mutex c5cfg (mainWith goodSW goodW) rfl rfl

/-- C6: every completed run reports exactly
`cfg.iters * cfg.size * 2` aggregate bytes, whatever the
consistency-mode flags. -/
theorem C6_bytes (cfg : Cfg) (w : World)
    (hc : (run cfg w).completed = true) :
    (run cfg w).reportedBytes = some (cfg.iters * cfg.size * 2) :=
  (run_completed hc).2.2.2.1

/-- C6, witness: one round of four bytes reports eight bytes. -/
theorem C6_witness : (run icfg goodW).reportedBytes = some 8 := by
  have h := C6_bytes icfg goodW (by decide)
  simpa [icfg] using h

/-- C7: after a completed run of `R ≥ 1` rounds, the clock was read
`2R + 2` times (position 0 before the loop, the last position
`2R + 1` after it), the reported elapsed time is the last reading
minus the pre-loop reading, and the reported average one-way latency
is that elapsed time divided by `R * 2` — the division by `R` and
then by 2 of the source equals a single division by `R * 2`. -/
theorem C7_stats (cfg : Cfg) (w : World)
    (hc : (run cfg w).completed = true) (hR : 1 ≤ cfg.iters)
    (h0 : 0 ≤ tvUsec (w.clock (2 * cfg.iters + 1)) - tvUsec (w.clock 0))
    (h1 : tvUsec (w.clock (2 * cfg.iters + 1)) - tvUsec (w.clock 0) < 2 ^ 64) :
    (run cfg w).clockUsed = 2 * cfg.iters + 2 ∧
    (run cfg w).reportedElapsed =
      some ((tvUsec (w.clock (2 * cfg.iters + 1)) - tvUsec (w.clock 0)).toNat) ∧
    (run cfg w).reportedAvg =
      some ((tvUsec (w.clock (2 * cfg.iters + 1)) - tvUsec (w.clock 0)).toNat /
        (cfg.iters * 2)) := by
  obtain ⟨-, hcu, -, -, hel, hav⟩ := run_completed hc
  have he := elapsed_utime_eq h0 h1
  refine ⟨hcu, ?_, ?_⟩
  · rw [hel, he]
  · rw [hav, he]
    have hne : cfg.iters ≠ 0 := by omega
    simp [cdiv, hne, Nat.div_div_eq_div_mul]

/-- C7, witness: two-round run under the good clock. -/
theorem C7_witness :
    (run c2cfg goodW).clockUsed = 2 * c2cfg.iters + 2 ∧
    (run c2cfg goodW).reportedElapsed =
      some ((tvUsec (goodW.clock (2 * c2cfg.iters + 1)) - tvUsec (goodW.clock 0)).toNat) ∧
    (run c2cfg goodW).reportedAvg =
      some ((tvUsec (goodW.clock (2 * c2cfg.iters + 1)) - tvUsec (goodW.clock 0)).toNat /
        (c2cfg.iters * 2)) :=
  C7_stats c2cfg goodW (by decide) (by decide) (by decide) (by decide)

/-- C8, counterexample: a buffer whose first byte equals the expected
value 5 but whose second byte does not.  `compare` rejects it, so with
this buffer as every snapshot the spin loop never leaves — refuting
the claim that the loop exits exactly when the first byte matches. -/
theorem C8_counterexample :
    cexBuf 0 = 5 ∧ compare cexBuf 5 2 = 0 ∧
    wait (fun _ => cexBuf) 5 2 10 0 = none := by
  decide

/-- C8, amended: the spin loop compares every byte of the buffer (not
only the first) against the expected value: when it exits at spin
count `k`, all `size` bytes of snapshot `k` equal the value, and every
earlier snapshot had some byte that differed. -/
theorem C8_spin (snaps : Nat → Nat → Nat) (val size fuel k : Nat)
    (h : wait snaps val size fuel 0 = some k) :
    (∀ i, i < size → snaps k i = val) ∧
    ∀ j, j < k → ∃ i, i < size ∧ snaps j i ≠ val := by
  obtain ⟨h1, -, h3⟩ := wait_exits snaps val size fuel 0 k h
  refine ⟨(compare_eq_one_iff _ _ _).1 h1, ?_⟩
  intro j hj
  exact (compare_eq_zero_iff _ _ _).1 (h3 j (by omega) hj)

/-- C8, witness: snapshots that mismatch at spin count 0 and match
everywhere from spin count 1 on. -/
theorem C8_witness :
    (∀ i, i < 3 → snapsW 1 i = 7) ∧
    ∀ j, j < 1 → ∃ i, i < 3 ∧ snapsW j i ≠ 7 :=
  C8_spin snapsW 7 3 5 1 (by decide)

/-- C9, counterexample: the buffer is zeroed before the loop, but in a
128-round Responder run with pattern fill, half-round 256 fills the
buffer with pattern value 256, whose stored byte `256 % 256 = 0`
equals the zeroed initial content — refuting that the initial content
never equals a pattern value used in the run. -/
theorem C9_counterexample :
    (run c9cfg goodW).trace.head? = some (Ev.memsetBuf 0) ∧
    Ev.memsetBuf 256 ∈ (run c9cfg goodW).trace ∧
    byteOf 256 = byteOf 0 := by
  have hl : loopFrom c9cfg goodW 0 c9cfg.iters ⟨1, 1, [Ev.memsetBuf 0]⟩ =
      Except.ok ⟨1 + 2*c9cfg.iters, 1 + 2*c9cfg.iters,
        [Ev.memsetBuf 0] ++ goodSeg c9cfg 0 c9cfg.iters 1 1⟩ :=
    loopFrom_ok_of_good c9cfg.iters 0 _ (fun j _ _ => by simp [goodAt, goodW])
  have htr : (run c9cfg goodW).trace =
      Ev.memsetBuf 0 :: goodSeg c9cfg 0 c9cfg.iters 1 1 := by
    simp [run, hl]
  rw [htr]
  refine ⟨rfl, ?_, rfl⟩
  refine List.mem_cons_of_mem _ (mem_goodSeg (r := 127) (by decide) ?_)
  decide

/-- C9, amended: every run starts by zeroing the buffer, whatever the
role and flags; the pattern values used afterwards in a completed run
lie in `[1, 2R]`, so as long as `2R < 256` every pattern byte differs
from the zeroed initial byte — for longer runs the pattern byte wraps
modulo 256 and reaches 0. -/
theorem C9_zeroInit (cfg : Cfg) (w : World)
    (hc : (run cfg w).completed = true) :
    (run cfg w).trace.head? = some (Ev.memsetBuf 0) ∧
    ∀ e ∈ (run cfg w).trace.tail, ∀ v, patternOf e = some v →
      1 ≤ v ∧ v ≤ 2 * cfg.iters ∧
      (2 * cfg.iters < 256 → byteOf v ≠ byteOf 0) := by
  have htr := (run_completed hc).1
  rw [htr]
  refine ⟨rfl, ?_⟩
  intro e he v hv
  have hvp : v ∈ patterns (goodSeg cfg 0 cfg.iters 1 1) := by
    simp only [List.tail_cons] at he
    exact List.mem_filterMap.2 ⟨e, he, hv⟩
  have hb := patterns_goodSeg hvp
  refine ⟨by omega, by omega, ?_⟩
  intro hlt
  simp only [byteOf]
  omega

/-- C9, witness: one-round Responder run with pattern fill: the only
pattern value is 2, within range and distinct from the zero byte. -/
theorem C9_witness :
    (run c9wcfg goodW).trace.head? = some (Ev.memsetBuf 0) ∧
    (1 ≤ 2 ∧ 2 ≤ 2 * c9wcfg.iters ∧
      (2 * c9wcfg.iters < 256 → byteOf 2 ≠ byteOf 0)) := by
  have h := C9_zeroInit c9wcfg goodW (by decide)
  exact ⟨h.1, h.2 (Ev.memsetBuf 2) (by decide) 2 rfl⟩

/-- C10: the statistics line divides the elapsed time by the round
count and then by 2 with no guard, so the average is undefined exactly
when the round count is 0 — and round count 0 is accepted by the
option parsing (modelled from the spec) and reaches the division in a
completed run. -/
theorem C10_divzero (cfg : Cfg) (w : World)
    (hc : (run cfg w).completed = true) :
    itersAccepted 0 = true ∧
    ((run cfg w).reportedAvg = none ↔ cfg.iters = 0) := by
  obtain ⟨-, -, -, -, -, hav⟩ := run_completed hc
  refine ⟨rfl, ?_⟩
  rw [hav]
  by_cases h : cfg.iters = 0
  · simp [cdiv, h]
  · simp [cdiv, h]

/-- C10, witness: a zero-round configuration completes the (empty)
loop and reaches the division with a zero divisor: the average is
undefined. -/
theorem C10_witness :
    itersAccepted 0 = true ∧
    ((run c10cfg goodW).reportedAvg = none ↔ c10cfg.iters = 0) :=
  C10_divzero c10cfg goodW (by decide)

end Myfirstrdma
